import Mathlib

/-!
Verification of the keyword relevance search engine of the support-assistant
repository (file smart_hybrid_search.py).

Shallow embedding conventions:
* Python strings are modelled as List Char; str.lower is modelled by mapping
  Char.toLower (the model is ASCII-faithful, which covers every string
  occurring in the program and in the scenarios below).
* Python floats are modelled by rational numbers; the literals 0.5, 0.3,
  0.15, 0.1 become 1/2, 3/10, 3/20, 1/10.
* The regex \w+ (re.findall) is modelled by splitting into maximal runs of
  word characters (alphanumeric or underscore).
* str.find(sub) / str.find(sub, start), returning -1 on failure, are modelled
  by findSub / findFrom returning Option Nat; the -1 sentinel is reintroduced
  as an Int exactly where the Python code does arithmetic on it.
* The substring test (sub in s) is modelled by containsSub, i.e. findSub
  succeeding.
* File-system and JSON-decoding outcomes of load_articles are abstracted into
  the LoadSource datatype; the fresh-fetch network collaborator of
  search_and_get_context is abstracted into a function argument of type
  List Char → Option Article, mirroring fetch_fresh_article returning a dict
  or None.
-/

/-- Article record, as produced by the scraper snapshot and consumed by
SmartHybridSearch: title, url, content, optional scraped_at, and the is_fresh
marker set only by the fresh-fetch path (fetched_at likewise). -/
structure Article where
  title : List Char
  url : List Char
  content : List Char
  scraped_at : Option (List Char)
  fetched_at : Option (List Char)
  is_fresh : Bool
deriving DecidableEq, Repr

/-- Result record built by SmartHybridSearch.search for each kept candidate. -/
structure SearchResult where
  title : List Char
  url : List Char
  snippet : List Char
  score : ℚ
  scraped_at : List Char
deriving DecidableEq, Repr

/-- Intermediate pairing built by search, modelling the Python dict
with keys article and score. -/
structure ScoredArticle where
  article : Article
  score : ℚ
deriving DecidableEq, Repr

/-- Model of str.lower (ASCII). -/
def toLowerStr (l : List Char) : List Char := l.map Char.toLower

/-- Word character of the regex \w (ASCII model). -/
def isWordChar (c : Char) : Bool := c.isAlphanum || c == '_'

/-- Accumulator-based splitter behind tokenize: acc holds the current run of
word characters in reverse. -/
def tokenizeAux : List Char → List Char → List (List Char)
  | acc, [] => if acc = [] then [] else [acc.reverse]
  | acc, c :: cs =>
    if isWordChar c then tokenizeAux (c :: acc) cs
    else if acc = [] then tokenizeAux [] cs
    else acc.reverse :: tokenizeAux [] cs

/-- Model of re.findall applied to a string with the word-run regex: the list
of maximal runs of word characters, in order. -/
def tokenize (l : List Char) : List (List Char) := tokenizeAux [] l

/-- Model of str.find(pat): index of the first occurrence of pat, none when
absent (Python returns -1). -/
def findSub (pat : List Char) : List Char → Option Nat
  | [] => if pat.isPrefixOf ([] : List Char) then some 0 else none
  | c :: t =>
    if pat.isPrefixOf (c :: t) then some 0
    else (findSub pat t).map (· + 1)

/-- Model of str.find(pat, start): first occurrence at index ≥ start.
(Python and this model agree at every call site of the program: the program
only searches for non-empty patterns with start ≤ length.) -/
def findFrom (pat text : List Char) (start : Nat) : Option Nat :=
  (findSub pat (text.drop start)).map (· + start)

/-- Model of the Python substring test (pat in text). -/
def containsSub (pat text : List Char) : Bool := (findSub pat text).isSome

/-- Stop-word set of calculate_relevance_score. -/
def stop_words : List (List Char) :=
  ["how".toList, "can".toList, "the".toList, "what".toList, "when".toList,
   "where".toList, "why".toList, "is".toList, "in".toList, "to".toList,
   "a".toList, "an".toList, "and".toList, "or".toList]

/-- Keyword extraction of calculate_relevance_score: word tokens of the
lowercased query, keeping those of length > 2 that are not stop words. -/
def queryKeywords (query : List Char) : List (List Char) :=
  (tokenize (toLowerStr query)).filter
    (fun w => decide (2 < w.length) && !(stop_words.contains w))

/-- Adjacency-bonus loop of calculate_relevance_score: walk the consecutive
keyword pairs; when both words occur in the body and the second occurs within
100 characters after the first occurrence of the first, add 0.1 and stop.
(The guard len(query_keywords) >= 2 in the source is subsumed: with fewer
than two keywords there is no pair.) pos2 reintroduces the -1 that Python
find returns on failure, exactly as the source then subtracts positions. -/
def proximity_bonus (content_lower : List Char) : List (List Char) → ℚ
  | word1 :: word2 :: rest =>
    if containsSub word1 content_lower && containsSub word2 content_lower then
      let pos1 : Int := match findSub word1 content_lower with
        | some p => (p : Int)
        | none => -1
      let pos2 : Int := match findFrom word2 content_lower pos1.toNat with
        | some p => (p : Int)
        | none => -1
      if 0 < pos2 - pos1 ∧ pos2 - pos1 < 100 then 1/10
      else proximity_bonus content_lower (word2 :: rest)
    else proximity_bonus content_lower (word2 :: rest)
  | _ => 0

/-- Count of keywords occurring in a text, modelling the generator-sum
sum(1 for keyword in query_keywords if keyword in text) as a rational. -/
def matchCount (keywords : List (List Char)) (text : List Char) : ℚ :=
  ((keywords.filter (fun k => containsSub k text)).length : ℚ)

/-- Exact-phrase bonus of calculate_relevance_score: 0.3 when the lowercased
query appears verbatim in the title, else 0.15 when it appears in the body,
else 0. -/
def phraseBonus (query_lower title_lower content_lower : List Char) : ℚ :=
  if containsSub query_lower title_lower then 3/10
  else if containsSub query_lower content_lower then 3/20
  else 0

/-- Model of SmartHybridSearch.calculate_relevance_score: the running score
of the source (title coverage times 0.5, plus content coverage times 0.3,
plus the exact-phrase bonus, plus the adjacency bonus) capped by
min(score, 1.0); the zero-keyword case returns 0.0 before any division. -/
def calculate_relevance_score (query : List Char) (article : Article) : ℚ :=
  let query_lower := toLowerStr query
  let title_lower := toLowerStr article.title
  let content_lower := toLowerStr article.content
  let query_keywords := queryKeywords query
  if query_keywords = [] then 0
  else
    min
      (matchCount query_keywords title_lower / (query_keywords.length : ℚ)
          * (1/2)
        + matchCount query_keywords content_lower / (query_keywords.length : ℚ)
          * (3/10)
        + phraseBonus query_lower title_lower content_lower
        + proximity_bonus content_lower query_keywords)
      1

/-- Model of str.strip with no argument: remove leading and trailing
whitespace. -/
def pyStrip (l : List Char) : List Char :=
  ((l.dropWhile Char.isWhitespace).reverse.dropWhile Char.isWhitespace).reverse

/-- Model of min over a non-empty Python list (none for the empty list). -/
def minList : List Nat → Option Nat
  | [] => none
  | x :: xs => some (xs.foldl min x)

/-- Keyword extraction of _extract_relevant_snippet: word tokens of the
lowercased query of length > 3 (deliberately stricter than the scorer). -/
def snippetKeywords (query : List Char) : List (List Char) :=
  (tokenize (toLowerStr query)).filter (fun w => decide (3 < w.length))

/-- First-occurrence positions collected by _extract_relevant_snippet:
for each snippet keyword found in the lowercased content, its position. -/
def keywordPositions (query content : List Char) : List Nat :=
  (snippetKeywords query).filterMap (fun k => findSub k (toLowerStr content))

/-- Model of SmartHybridSearch._extract_relevant_snippet. -/
def extract_relevant_snippet (query content : List Char)
    (snippet_length : Nat) : List Char :=
  match minList (keywordPositions query content) with
  | none => content.take snippet_length ++ "...".toList
  | some m =>
    let start_pos : Nat := m - 100
    let end_pos : Nat := min content.length (start_pos + snippet_length)
    let snippet := (content.drop start_pos).take (end_pos - start_pos)
    let snippet := if 0 < start_pos then "...".toList ++ snippet else snippet
    let snippet :=
      if end_pos < content.length then snippet ++ "...".toList else snippet
    pyStrip snippet

/-- Stable descending insertion, modelling the ordering produced by the
stable Python sort with key score and reverse=True: a later element is
placed after every earlier element of greater or equal score. -/
def insertByScore (x : ScoredArticle) :
    List ScoredArticle → List ScoredArticle
  | [] => [x]
  | y :: l =>
    if y.score ≤ x.score then x :: y :: l else y :: insertByScore x l

/-- Model of scored_articles.sort(key score, reverse=True): stable sort by
non-increasing score. -/
def sortByScoreDesc : List ScoredArticle → List ScoredArticle
  | [] => []
  | x :: l => insertByScore x (sortByScoreDesc l)

/-- Result record built from one kept candidate inside search. -/
def toSearchResult (query : List Char) (x : ScoredArticle) : SearchResult :=
  { title := x.article.title
    url := x.article.url
    snippet := extract_relevant_snippet query x.article.content 300
    score := x.score
    scraped_at := x.article.scraped_at.getD ("Unknown".toList) }

/-- Loop body of search: score one article and keep it when the score
reaches min_score. -/
def keepCandidate (query : List Char) (min_score : ℚ) (a : Article) :
    Option ScoredArticle :=
  let score := calculate_relevance_score query a
  if min_score ≤ score then some (ScoredArticle.mk a score) else none

/-- Model of SmartHybridSearch.search (Python defaults: max_results = 5,
min_score = 0.1). -/
def search (articles : List Article) (query : List Char)
    (max_results : Nat) (min_score : ℚ) : List SearchResult :=
  if articles = [] then []
  else
    let scored := articles.filterMap (keepCandidate query min_score)
    let sorted := sortByScoreDesc scored
    (sorted.take max_results).map (toSearchResult query)

/-- Outcome of the file-system and JSON-decoding steps of load_articles,
abstracted: the snapshot file is absent, or present but not valid JSON, or
decodes to a list of articles. -/
inductive LoadSource where
  | missingFile
  | malformedJson
  | parsed (articles : List Article)
deriving DecidableEq, Repr

/-- Error taxonomy named by the spec for Article Store loading. -/
inductive LoadError where
  | missingFile
  | malformedJson
deriving DecidableEq, Repr

/-- Model of SmartHybridSearch.load_articles. The source wraps the read in
try/except and answers the missing-file test with a warning print: in both
failure cases it assigns an empty article list and returns normally, so no
branch of the model produces an error. -/
def load_articles : LoadSource → Except LoadError (List Article)
  | LoadSource.missingFile => Except.ok []
  | LoadSource.malformedJson => Except.ok []
  | LoadSource.parsed articles => Except.ok articles

/-- Cached-article lookup used twice by search_and_get_context:
next(a for a in self.articles if a.url == result.url, None). -/
def lookupCached (articles : List Article) (url : List Char) :
    Option Article :=
  articles.find? (fun a => a.url == url)

/-- Choice of context article for one search result: cached content when
fetch_fresh is false; otherwise the fresh fetch, falling back to the cached
article when the fetch fails. -/
def pickContextArticle (articles : List Article)
    (fetch : List Char → Option Article) (fetch_fresh : Bool)
    (r : SearchResult) : Option Article :=
  if !fetch_fresh then lookupCached articles r.url
  else
    match fetch r.url with
    | some fresh => some fresh
    | none => lookupCached articles r.url

/-- Context block of one article, as formatted by search_and_get_context. -/
def contextBlock (i : Nat) (a : Article) : List Char :=
  "Article ".toList ++ (toString i).toList ++ ": ".toList ++ a.title
    ++ "\n".toList
    ++ "URL: ".toList ++ a.url ++ "\n".toList
    ++ (if a.is_fresh then "Status: ✨ Fresh content (fetched just now)\n".toList
        else "Scraped: ".toList ++ a.scraped_at.getD ("Unknown".toList)
          ++ "\n".toList)
    ++ "\nContent:\n".toList ++ a.content.take 3500 ++ "\n\n".toList
    ++ List.replicate 80 '-' ++ "\n\n".toList

/-- Full context string of search_and_get_context, articles numbered from 1. -/
def formatContext (articles : List Article) : List Char :=
  "RELEVANT INFORMATION FROM DVSUM KNOWLEDGE BASE:\n\n".toList
    ++ (articles.enum.map (fun p => contextBlock (p.1 + 1) p.2)).flatten

/-- Model of SmartHybridSearch.search_and_get_context (Python defaults:
max_articles = 2, fetch_fresh = False). The network collaborator
fetch_fresh_article is abstracted as the argument fetch. -/
def search_and_get_context (articles : List Article)
    (fetch : List Char → Option Article) (query : List Char)
    (max_articles : Nat) (fetch_fresh : Bool) : Option (List Char) :=
  let results := search articles query (max_articles * 2) (3/20)
  if results = [] then none
  else
    let context_articles := (results.take max_articles).filterMap
      (pickContextArticle articles fetch fetch_fresh)
    if context_articles = [] then none
    else some (formatContext context_articles)

/-- Concrete store element used in the scenario analyses below: an article
about password resets. -/
def resetArticle : Article :=
  Article.mk ("Reset password".toList) ("u1".toList) ("reset".toList)
    none none false

/-- Concrete store element whose score against the five-keyword query
"aaa bbb ccc ddd eee" is exactly 0.1 (one of five keywords matches the
title; nothing matches the empty body). -/
def pentaArticle : Article :=
  Article.mk ("aaa".toList) ("u1".toList) ("".toList) none none false

/-- Concrete store element that never mentions the word reset. -/
def loginArticle : Article :=
  Article.mk ("Login help".toList) ("u2".toList) ("use your email".toList)
    none none false

/-- Concrete article carrying the full query verbatim in its title. -/
def dogCatTitleArticle : Article :=
  Article.mk ("Dog Cat guide".toList) ("uA".toList) ("".toList)
    none none false

/-- Concrete article carrying the full query verbatim only in its body. -/
def dogCatBodyArticle : Article :=
  Article.mk ("Zzz".toList) ("uB".toList) ("dog cat".toList)
    none none false

/-- Occurrence of a pattern at a given index of a text: the pattern is a
prefix of the text with the first i characters removed. -/
abbrev occursAt (pat text : List Char) (i : Nat) : Prop :=
  pat <+: text.drop i

/-! ## Unfolding equation for the candidate filter of search -/

theorem keepCandidate_eq (query : List Char) (min_score : ℚ) (a : Article) :
    keepCandidate query min_score a =
      if min_score ≤ calculate_relevance_score query a
      then some (ScoredArticle.mk a (calculate_relevance_score query a))
      else none := rfl

/-! ## Correctness of the string-search primitives -/

/-- Boolean prefix test agrees with the prefix relation. -/
theorem isPrefixOf_iff_occurs {l1 l2 : List Char} :
    l1.isPrefixOf l2 = true ↔ l1 <+: l2 := by
  exact List.isPrefixOf_iff_prefix

/-- Soundness of findSub: a returned index is an occurrence. -/
theorem findSub_some_occurs {pat : List Char} :
    ∀ {t : List Char} {i : Nat}, findSub pat t = some i →
      pat <+: t.drop i := by
  intro t
  induction t with
  | nil =>
    intro i h
    simp only [findSub] at h
    split at h
    · rename_i hp
      cases h
      simpa using isPrefixOf_iff_occurs.mp hp
    · cases h
  | cons c t ih =>
    intro i h
    simp only [findSub] at h
    split at h
    · rename_i hp
      cases h
      simpa using isPrefixOf_iff_occurs.mp hp
    · rcases Option.map_eq_some'.mp h with ⟨j, hj, rfl⟩
      simpa using ih hj

/-- Minimality of findSub: no occurrence exists before the returned index. -/
theorem findSub_some_least {pat : List Char} :
    ∀ {t : List Char} {i : Nat}, findSub pat t = some i →
      ∀ j < i, ¬ pat <+: t.drop j := by
  intro t
  induction t with
  | nil =>
    intro i h
    simp only [findSub] at h
    split at h
    · cases h; omega
    · cases h
  | cons c t ih =>
    intro i h
    simp only [findSub] at h
    split at h
    · cases h; omega
    · rename_i hp
      rcases Option.map_eq_some'.mp h with ⟨j', hj', rfl⟩
      intro j hj
      match j with
      | 0 =>
        simpa using fun hpre => hp (isPrefixOf_iff_occurs.mpr hpre)
      | k + 1 =>
        simpa using ih hj' k (by omega)

/-- Completeness of findSub: if the pattern occurs anywhere, findSub finds
an occurrence. -/
theorem findSub_isSome_of_occurs {pat : List Char} :
    ∀ {t : List Char} {i : Nat}, pat <+: t.drop i →
      (findSub pat t).isSome := by
  intro t
  induction t with
  | nil =>
    intro i h
    simp only [List.drop_nil, List.prefix_nil] at h
    subst h
    simp [findSub]
  | cons c t ih =>
    intro i h
    simp only [findSub]
    split
    · simp
    · rename_i hp
      match i with
      | 0 =>
        exact absurd (isPrefixOf_iff_occurs.mpr (by simpa using h)) hp
      | j + 1 =>
        have := ih (i := j) (by simpa using h)
        simpa using this

/-- The Python substring test agrees with list-infix containment. -/
theorem containsSub_correct {pat t : List Char} :
    containsSub pat t = true ↔ pat <:+: t := by
  constructor
  · intro h
    rcases Option.isSome_iff_exists.mp h with ⟨i, hi⟩
    have hpre := findSub_some_occurs hi
    rcases hpre with ⟨u, hu⟩
    exact ⟨t.take i, u, by rw [List.append_assoc, hu, List.take_append_drop]⟩
  · rintro ⟨s, u, rfl⟩
    have hpre : pat <+: ((s ++ pat ++ u).drop s.length) := by
      rw [List.append_assoc, List.drop_left]
      exact ⟨u, rfl⟩
    exact findSub_isSome_of_occurs hpre

/-! ## Tokens are substrings of the tokenized string -/

/-- Every token produced by tokenizeAux is an infix of the pending
accumulator followed by the remaining input. -/
theorem tokenizeAux_token_sub :
    ∀ (l acc tok : List Char), tok ∈ tokenizeAux acc l →
      tok <:+: (acc.reverse ++ l) := by
  intro l
  induction l with
  | nil =>
    intro acc tok h
    simp only [tokenizeAux] at h
    split at h
    · cases h
    · rcases List.mem_singleton.mp h with rfl
      simp
  | cons c cs ih =>
    intro acc tok h
    simp only [tokenizeAux] at h
    split at h
    · have := ih (c :: acc) tok h
      simpa [List.append_assoc] using this
    · split at h
      · rename_i hacc
        subst hacc
        have h1 : tok <:+: cs := by simpa using ih [] tok h
        have h2 : (cs : List Char) <:+: (c :: cs) := ⟨[c], [], by simp⟩
        simpa using h1.trans h2
      · rcases List.mem_cons.mp h with rfl | h
        · exact ⟨[], c :: cs, by simp⟩
        · have h1 : tok <:+: cs := by simpa using ih [] tok h
          have h2 : (cs : List Char) <:+: (acc.reverse ++ c :: cs) :=
            ⟨acc.reverse ++ [c], [], by simp⟩
          exact h1.trans h2

/-- Every token of tokenize is an infix of the input. -/
theorem tokenize_token_sub {l tok : List Char} (h : tok ∈ tokenize l) :
    tok <:+: l := by
  simpa using tokenizeAux_token_sub l [] tok h

/-- Every scorer keyword is a substring of the lowercased query. -/
theorem queryKeywords_sub {query k : List Char}
    (h : k ∈ queryKeywords query) : k <:+: toLowerStr query :=
  tokenize_token_sub (List.mem_of_mem_filter h)

/-! ## Bounds on the score components -/

/-- The adjacency bonus is either absent or the flat 0.1. -/
theorem proximity_bonus_eq_zero_or (content_lower : List Char) :
    ∀ ws : List (List Char), proximity_bonus content_lower ws = 0 ∨
      proximity_bonus content_lower ws = 1/10 := by
  intro ws
  induction ws with
  | nil => left; rfl
  | cons w ws ih =>
    match ws, ih with
    | [], _ => left; rfl
    | w2 :: rest, ih =>
      simp only [proximity_bonus]
      split
      · split
        · right; rfl
        · exact ih
      · exact ih

theorem proximity_bonus_nonneg (content_lower : List Char)
    (ws : List (List Char)) : 0 ≤ proximity_bonus content_lower ws := by
  rcases proximity_bonus_eq_zero_or content_lower ws with h | h <;> rw [h]
  · norm_num

theorem proximity_bonus_le (content_lower : List Char)
    (ws : List (List Char)) : proximity_bonus content_lower ws ≤ 1/10 := by
  rcases proximity_bonus_eq_zero_or content_lower ws with h | h <;> rw [h]
  · norm_num

/-- Match counts are nonnegative. -/
theorem matchCount_nonneg (keywords : List (List Char)) (text : List Char) :
    0 ≤ matchCount keywords text := by
  simp only [matchCount]
  positivity

/-- A match count never exceeds the number of keywords. -/
theorem matchCount_le_length (keywords : List (List Char)) (text : List Char) :
    matchCount keywords text ≤ (keywords.length : ℚ) := by
  simp only [matchCount]
  exact_mod_cast List.length_filter_le _ keywords

/-- The exact-phrase bonus is nonnegative. -/
theorem phraseBonus_nonneg (ql tl cl : List Char) :
    0 ≤ phraseBonus ql tl cl := by
  simp only [phraseBonus]
  split
  · norm_num
  · split <;> norm_num

/-- The exact-phrase bonus is at most the title bonus 0.3. -/
theorem phraseBonus_le (ql tl cl : List Char) :
    phraseBonus ql tl cl ≤ 3/10 := by
  simp only [phraseBonus]
  split
  · norm_num
  · split <;> norm_num

/-! ## Minimum of a Python list -/

theorem foldl_min_mem : ∀ (xs : List Nat) (x : Nat),
    xs.foldl min x ∈ x :: xs := by
  intro xs
  induction xs with
  | nil => intro x; simp
  | cons y ys ih =>
    intro x
    simp only [List.foldl_cons]
    rcases List.mem_cons.mp (ih (min x y)) with h | h
    · rw [h]
      rcases min_choice x y with hm | hm <;> rw [hm]
      · exact List.mem_cons_self _ _
      · exact List.mem_cons.mpr (Or.inr (List.mem_cons_self _ _))
    · exact List.mem_cons.mpr (Or.inr (List.mem_cons.mpr (Or.inr h)))

theorem foldl_min_le : ∀ (xs : List Nat) (x y : Nat), y ∈ x :: xs →
    xs.foldl min x ≤ y := by
  intro xs
  induction xs with
  | nil =>
    intro x y hy
    rcases List.mem_singleton.mp hy with rfl
    simp
  | cons z zs ih =>
    intro x y hy
    simp only [List.foldl_cons]
    rcases List.mem_cons.mp hy with rfl | hy
    · exact le_trans (ih (min y z) (min y z) (List.mem_cons_self _ _))
        (Nat.min_le_left _ _)
    · rcases List.mem_cons.mp hy with rfl | hy
      · exact le_trans (ih (min x y) (min x y) (List.mem_cons_self _ _))
          (Nat.min_le_right _ _)
      · exact ih (min x z) y (List.mem_cons.mpr (Or.inr hy))

/-- Characterization used for the snippet extractor: the minimum of a list
is the member below every member. -/
theorem minList_eq_some {l : List Nat} {m : Nat} (hm : m ∈ l)
    (hle : ∀ x ∈ l, m ≤ x) : minList l = some m := by
  match l with
  | x :: xs =>
    simp only [minList, Option.some.injEq]
    have h1 : xs.foldl min x ∈ x :: xs := foldl_min_mem xs x
    have h2 : xs.foldl min x ≤ m := foldl_min_le xs x m hm
    exact le_antisymm h2 (hle _ h1)

/-! ## The stable descending sort -/

theorem mem_insertByScore {x y : ScoredArticle} :
    ∀ {l : List ScoredArticle}, y ∈ insertByScore x l ↔ y = x ∨ y ∈ l := by
  intro l
  induction l with
  | nil => simp [insertByScore]
  | cons z l ih =>
    simp only [insertByScore]
    split
    · simp [List.mem_cons]
    · simp only [List.mem_cons, ih]
      tauto

theorem sorted_insertByScore (x : ScoredArticle) :
    ∀ {l : List ScoredArticle},
      l.Pairwise (fun a b => b.score ≤ a.score) →
      (insertByScore x l).Pairwise (fun a b => b.score ≤ a.score) := by
  intro l
  induction l with
  | nil => intro _; simp [insertByScore]
  | cons z l ih =>
    intro h
    rcases List.pairwise_cons.mp h with ⟨hz, hl⟩
    simp only [insertByScore]
    split
    · rename_i hle
      refine List.pairwise_cons.mpr ⟨?_, h⟩
      intro b hb
      rcases List.mem_cons.mp hb with rfl | hb
      · exact hle
      · exact le_trans (hz b hb) hle
    · rename_i hgt
      refine List.pairwise_cons.mpr ⟨?_, ih hl⟩
      intro b hb
      rcases mem_insertByScore.mp hb with rfl | hb
      · exact le_of_not_le hgt
      · exact hz b hb

theorem mem_sortByScoreDesc {y : ScoredArticle} :
    ∀ {l : List ScoredArticle}, y ∈ sortByScoreDesc l ↔ y ∈ l := by
  intro l
  induction l with
  | nil => simp [sortByScoreDesc]
  | cons x l ih =>
    simp only [sortByScoreDesc, mem_insertByScore, ih, List.mem_cons]

theorem sorted_sortByScoreDesc :
    ∀ (l : List ScoredArticle),
      (sortByScoreDesc l).Pairwise (fun a b => b.score ≤ a.score) := by
  intro l
  induction l with
  | nil => simp [sortByScoreDesc]
  | cons x l ih => exact sorted_insertByScore x ih

/-! ## Unfolding equation for the scorer with surviving keywords -/

theorem calculate_relevance_score_eq {query : List Char} (article : Article)
    (h : queryKeywords query ≠ []) :
    calculate_relevance_score query article =
      min
        (matchCount (queryKeywords query) (toLowerStr article.title)
            / ((queryKeywords query).length : ℚ) * (1/2)
          + matchCount (queryKeywords query) (toLowerStr article.content)
            / ((queryKeywords query).length : ℚ) * (3/10)
          + phraseBonus (toLowerStr query) (toLowerStr article.title)
              (toLowerStr article.content)
          + proximity_bonus (toLowerStr article.content) (queryKeywords query))
        1 := by
  simp only [calculate_relevance_score, if_neg h]

/-! ## Membership characterization of search results -/

theorem mem_search {articles : List Article} {query : List Char}
    {max_results : Nat} {min_score : ℚ} {r : SearchResult}
    (h : r ∈ search articles query max_results min_score) :
    ∃ a ∈ articles, min_score ≤ calculate_relevance_score query a ∧
      r = toSearchResult query
        (ScoredArticle.mk a (calculate_relevance_score query a)) := by
  simp only [search] at h
  split at h
  · cases h
  · rcases List.mem_map.mp h with ⟨x, hx, rfl⟩
    have hx2 := List.take_subset _ _ hx
    have hx3 := mem_sortByScoreDesc.mp hx2
    rcases List.mem_filterMap.mp hx3 with ⟨a, ha, hfa⟩
    rw [keepCandidate_eq] at hfa
    split at hfa
    · rename_i hle
      cases hfa
      exact ⟨a, ha, hle, rfl⟩
    · cases hfa

/-- C1: for every query string and every article, the relevance score
returned by calculate_relevance_score lies in the closed interval
[0.0, 1.0]. -/
theorem C1_score_in_unit_interval (query : List Char) (article : Article) :
    0 ≤ calculate_relevance_score query article ∧
      calculate_relevance_score query article ≤ 1 := by
  by_cases h : queryKeywords query = []
  · constructor <;> simp [calculate_relevance_score, h]
  · rw [calculate_relevance_score_eq article h]
    have hn : (0 : ℚ) ≤ ((queryKeywords query).length : ℚ) := by positivity
    have h1 : 0 ≤ matchCount (queryKeywords query) (toLowerStr article.title)
        / ((queryKeywords query).length : ℚ) * (1/2) :=
      mul_nonneg (div_nonneg (matchCount_nonneg _ _) hn) (by norm_num)
    have h2 : 0 ≤ matchCount (queryKeywords query) (toLowerStr article.content)
        / ((queryKeywords query).length : ℚ) * (3/10) :=
      mul_nonneg (div_nonneg (matchCount_nonneg _ _) hn) (by norm_num)
    have h3 := phraseBonus_nonneg (toLowerStr query) (toLowerStr article.title)
      (toLowerStr article.content)
    have h4 := proximity_bonus_nonneg (toLowerStr article.content)
      (queryKeywords query)
    exact ⟨le_min (by linarith) zero_le_one, min_le_right _ _⟩

/-- C2: when every word token of the lowercased query has length at most 2
or is a stop word (so no keyword survives), calculate_relevance_score
returns exactly 0 for every article; the zero-keyword guard returns before
the coverage divisions are reached. -/
theorem C2_zero_keywords_zero_score (query : List Char) (article : Article)
    (h : ∀ w ∈ tokenize (toLowerStr query), w.length ≤ 2 ∨ w ∈ stop_words) :
    calculate_relevance_score query article = 0 := by
  have hk : queryKeywords query = [] := by
    simp only [queryKeywords, List.filter_eq_nil_iff]
    intro w hw
    rcases h w hw with hlen | hmem
    · simp [Nat.not_lt.mpr hlen]
    · have hc : stop_words.contains w = true :=
        List.contains_iff_exists_mem_beq.mpr ⟨w, hmem, beq_self_eq_true w⟩
      simp [hc, hmem]
  simp [calculate_relevance_score, hk]

/-- Witness for C2 at the stop-word query "how can I". -/
theorem C2_zero_keywords_zero_score_witness :
    calculate_relevance_score ("how can I".toList)
      (Article.mk ("Reset password".toList) ("u1".toList)
        ("reset your password".toList) none none false) = 0 :=
  C2_zero_keywords_zero_score _ _ (by decide)

/-- C3: search returns at most max_results items, every returned item has
score at least min_score, and the items are ordered by non-increasing
score. -/
theorem C3_search_contract (articles : List Article) (query : List Char)
    (max_results : Nat) (min_score : ℚ) :
    (search articles query max_results min_score).length ≤ max_results ∧
    (∀ r ∈ search articles query max_results min_score,
      min_score ≤ r.score) ∧
    (search articles query max_results min_score).Pairwise
      (fun x y => y.score ≤ x.score) := by
  refine ⟨?_, ?_, ?_⟩
  · simp only [search]
    split
    · simp
    · rw [List.length_map]
      exact List.length_take_le _ _
  · intro r hr
    rcases mem_search hr with ⟨a, _, hle, rfl⟩
    exact hle
  · simp only [search]
    split
    · simp
    · exact List.pairwise_map.mpr
        ((sorted_sortByScoreDesc _).sublist (List.take_sublist _ _))

/-- C8: search on an empty article store returns the empty sequence (the
model is a total function, so no error is possible). -/
theorem C8_empty_store (query : List Char) (max_results : Nat)
    (min_score : ℚ) : search [] query max_results min_score = [] := by
  simp [search]

/-- Substring containment respects infix: if p occurs inside q and q occurs
in t, then p occurs in t. -/
theorem containsSub_trans {p q t : List Char}
    (hpq : p <:+: q) (hq : containsSub q t = true) :
    containsSub p t = true :=
  containsSub_correct.mpr (hpq.trans (containsSub_correct.mp hq))

/-- Evaluation helper: a match count is the length of the computed filter. -/
theorem matchCount_eval {kws l2 : List (List Char)} {t : List Char}
    (h : kws.filter (fun k => containsSub k t) = l2) :
    matchCount kws t = (l2.length : ℚ) := by
  simp [matchCount, h]

theorem phraseBonus_eval_none {ql tl cl : List Char}
    (h1 : containsSub ql tl = false) (h2 : containsSub ql cl = false) :
    phraseBonus ql tl cl = 0 := by
  simp [phraseBonus, h1, h2]

theorem phraseBonus_eval_title {ql tl cl : List Char}
    (h1 : containsSub ql tl = true) : phraseBonus ql tl cl = 3/10 := by
  simp [phraseBonus, h1]

theorem phraseBonus_eval_body {ql tl cl : List Char}
    (h1 : containsSub ql tl = false) (h2 : containsSub ql cl = true) :
    phraseBonus ql tl cl = 3/20 := by
  simp [phraseBonus, h1, h2]

/-- Evaluation helper: search over a one-article store. -/
theorem search_singleton (a : Article) (q : List Char) (mr : Nat)
    (ms : ℚ) (hmr : 1 ≤ mr) :
    search [a] q mr ms =
      if ms ≤ calculate_relevance_score q a
      then [toSearchResult q
        (ScoredArticle.mk a (calculate_relevance_score q a))]
      else [] := by
  by_cases h : ms ≤ calculate_relevance_score q a
  · rw [if_pos h]
    simp only [search, if_neg (List.cons_ne_nil a ([] : List Article)),
      List.filterMap_cons, List.filterMap_nil, keepCandidate_eq, if_pos h,
      sortByScoreDesc, insertByScore]
    rw [List.take_of_length_le (by simpa using hmr)]
    simp
  · rw [if_neg h]
    simp only [search, if_neg (List.cons_ne_nil a ([] : List Article)),
      List.filterMap_cons, List.filterMap_nil, keepCandidate_eq, if_neg h,
      sortByScoreDesc]
    simp

/-- Concrete score of pentaArticle against the five-keyword query: exactly
one of five keywords occurs in the title, none in the empty body, no phrase
and no adjacency bonus, so the score is (1/5) * 0.5 = 0.1. -/
theorem pentaArticle_score :
    calculate_relevance_score ("aaa bbb ccc ddd eee".toList) pentaArticle
      = 1/10 := by
  rw [calculate_relevance_score_eq _ (by decide)]
  rw [show queryKeywords ("aaa bbb ccc ddd eee".toList)
    = ["aaa".toList, "bbb".toList, "ccc".toList, "ddd".toList, "eee".toList]
    from by decide]
  rw [matchCount_eval (show (["aaa".toList, "bbb".toList, "ccc".toList,
        "ddd".toList, "eee".toList] : List (List Char)).filter
        (fun k => containsSub k (toLowerStr pentaArticle.title))
        = ["aaa".toList] from by decide),
    matchCount_eval (show (["aaa".toList, "bbb".toList, "ccc".toList,
        "ddd".toList, "eee".toList] : List (List Char)).filter
        (fun k => containsSub k (toLowerStr pentaArticle.content))
        = [] from by decide),
    phraseBonus_eval_none (by decide) (by decide),
    show proximity_bonus (toLowerStr pentaArticle.content)
      ["aaa".toList, "bbb".toList, "ccc".toList, "ddd".toList, "eee".toList]
      = 0 from rfl]
  norm_num

/-- Concrete score of resetArticle against "how can I reset": the only
surviving keyword reset occurs in title and body, giving 0.5 + 0.3. -/
theorem resetArticle_score :
    calculate_relevance_score ("how can I reset".toList) resetArticle
      = 4/5 := by
  rw [calculate_relevance_score_eq _ (by decide)]
  rw [show queryKeywords ("how can I reset".toList) = ["reset".toList]
    from by decide]
  rw [matchCount_eval (show (["reset".toList] : List (List Char)).filter
      (fun k => containsSub k (toLowerStr resetArticle.title))
      = ["reset".toList] from by decide),
    matchCount_eval (show (["reset".toList] : List (List Char)).filter
      (fun k => containsSub k (toLowerStr resetArticle.content))
      = ["reset".toList] from by decide),
    phraseBonus_eval_none (by decide) (by decide),
    show proximity_bonus (toLowerStr resetArticle.content)
      [("reset".toList : List Char)] = 0 from rfl]
  norm_num

/-- C4 counterexample: loading succeeds (with an empty article list) both
when the snapshot file is absent and when its contents are malformed JSON —
load_articles never produces the LoadError the claim requires. -/
theorem C4_counterexample :
    (load_articles LoadSource.missingFile).isOk = true ∧
    (load_articles LoadSource.malformedJson).isOk = true := ⟨rfl, rfl⟩

/-- C4 amended: loading never fails. When the persisted snapshot file is
absent or its contents are malformed JSON the loader swallows the failure
(logging a warning) and yields an empty article store; otherwise it yields
the parsed articles. -/
theorem C4_load_never_fails :
    load_articles LoadSource.missingFile = Except.ok [] ∧
    load_articles LoadSource.malformedJson = Except.ok [] ∧
    ∀ arts : List Article,
      load_articles (LoadSource.parsed arts) = Except.ok arts :=
  ⟨rfl, rfl, fun _ => rfl⟩

/-- C5 counterexample: in the query "how can I reset" the word reset has
length 5 and is not a stop word, so it survives keyword extraction; against
a non-empty store whose article mentions reset, search at the default
min_score 0.1 returns a non-empty sequence, refuting the claim. -/
theorem C5_counterexample :
    search [resetArticle] ("how can I reset".toList) 5 (1/10) ≠ [] := by
  rw [search_singleton _ _ _ _ (by norm_num), resetArticle_score,
    if_pos (by norm_num)]
  simp

/-- C10: search_and_get_context calls search with min_score 0.15 while
search itself defaults to 0.1, so there is a store and a query (here: one
article scoring exactly 0.1) for which search with default arguments
returns a non-empty sequence while search_and_get_context returns the null
no-context value. -/
theorem C10_stricter_threshold :
    ∃ (articles : List Article) (query : List Char),
      search articles query 5 (1/10) ≠ [] ∧
      search_and_get_context articles (fun _ => none) query 2 false
        = none := by
  refine ⟨[pentaArticle], "aaa bbb ccc ddd eee".toList, ?_, ?_⟩
  · rw [search_singleton _ _ _ _ (by norm_num),
      pentaArticle_score, if_pos (by norm_num)]
    simp
  · simp only [search_and_get_context]
    rw [show (2 : Nat) * 2 = 4 from rfl,
      search_singleton _ _ _ _ (by norm_num), pentaArticle_score,
      if_neg (show ¬((3:ℚ)/20 ≤ 1/10) from by norm_num)]
    simp

/-- C5 amended: for the query "how can I reset" the surviving keyword list
is exactly [reset]; against every non-empty store in which no article
mentions reset in its lowercased title or content, every article scores 0.0
and search at the default min_score 0.1 returns the empty sequence. -/
theorem C5_amended_reset_free_store (articles : List Article)
    (hne : articles ≠ [])
    (h : ∀ a ∈ articles,
      containsSub ("reset".toList) (toLowerStr a.title) = false ∧
      containsSub ("reset".toList) (toLowerStr a.content) = false) :
    (∀ a ∈ articles,
      calculate_relevance_score ("how can I reset".toList) a = 0) ∧
    search articles ("how can I reset".toList) 5 (1/10) = [] := by
  have hreset : ("reset".toList : List Char)
      <:+: toLowerStr ("how can I reset".toList) :=
    containsSub_correct.mp (by decide)
  have hscore : ∀ a ∈ articles,
      calculate_relevance_score ("how can I reset".toList) a = 0 := by
    intro a ha
    obtain ⟨h1, h2⟩ := h a ha
    rw [calculate_relevance_score_eq _ (by decide)]
    rw [show queryKeywords ("how can I reset".toList) = ["reset".toList]
      from by decide]
    have hq1 : containsSub (toLowerStr ("how can I reset".toList))
        (toLowerStr a.title) = false := by
      cases hb : containsSub (toLowerStr ("how can I reset".toList))
          (toLowerStr a.title)
      · rfl
      · have := containsSub_trans hreset hb
        rw [h1] at this
        cases this
    have hq2 : containsSub (toLowerStr ("how can I reset".toList))
        (toLowerStr a.content) = false := by
      cases hb : containsSub (toLowerStr ("how can I reset".toList))
          (toLowerStr a.content)
      · rfl
      · have := containsSub_trans hreset hb
        rw [h2] at this
        cases this
    rw [matchCount_eval (show (["reset".toList] : List (List Char)).filter
        (fun k => containsSub k (toLowerStr a.title)) = [] from by
          rw [List.filter_eq_nil_iff]
          intro k hk
          rw [List.mem_singleton] at hk
          subst hk
          rw [h1]
          simp),
      matchCount_eval (show (["reset".toList] : List (List Char)).filter
        (fun k => containsSub k (toLowerStr a.content)) = [] from by
          rw [List.filter_eq_nil_iff]
          intro k hk
          rw [List.mem_singleton] at hk
          subst hk
          rw [h2]
          simp),
      phraseBonus_eval_none hq1 hq2,
      show proximity_bonus (toLowerStr a.content)
        [("reset".toList : List Char)] = 0 from rfl]
    norm_num
  refine ⟨hscore, ?_⟩
  simp only [search]
  split
  · rfl
  · have hnil : articles.filterMap
        (keepCandidate ("how can I reset".toList) (1/10)) = [] := by
      rw [List.filterMap_eq_nil_iff]
      intro a ha
      rw [keepCandidate_eq, hscore a ha,
        if_neg (show ¬((1:ℚ)/10 ≤ 0) from by norm_num)]
    rw [hnil]
    simp [sortByScoreDesc]

/-- Witness for the amended C5 at a concrete reset-free one-article store. -/
theorem C5_amended_reset_free_store_witness :
    (∀ a ∈ [loginArticle],
      calculate_relevance_score ("how can I reset".toList) a = 0) ∧
    search [loginArticle] ("how can I reset".toList) 5 (1/10) = [] :=
  C5_amended_reset_free_store [loginArticle]
    (List.cons_ne_nil _ _) (by decide)

/-- C6: for every query with at least one surviving keyword, an article with
the full lowercased query verbatim in its lowercased title scores strictly
higher than any article where the query matches only in the body (no keyword
occurring in that article title): the title article collects full title
coverage plus the 0.3 title bonus (at least 0.8), while the body-only
article can collect at most 0.3 content coverage, the 0.15 body bonus and
the 0.1 adjacency bonus (at most 0.55). -/
theorem C6_title_phrase_beats_body_phrase (query : List Char)
    (A B : Article) (hkw : queryKeywords query ≠ [])
    (hA : containsSub (toLowerStr query) (toLowerStr A.title) = true)
    (hBtitle : ∀ k ∈ queryKeywords query,
      containsSub k (toLowerStr B.title) = false)
    (hBbody : containsSub (toLowerStr query) (toLowerStr B.content) = true) :
    calculate_relevance_score query B < calculate_relevance_score query A := by
  have hn : 0 < ((queryKeywords query).length : ℚ) := by
    exact_mod_cast List.length_pos.mpr hkw
  have hAt : matchCount (queryKeywords query) (toLowerStr A.title)
      = ((queryKeywords query).length : ℚ) := by
    have hfull : (queryKeywords query).filter
        (fun k => containsSub k (toLowerStr A.title)) = queryKeywords query :=
      List.filter_eq_self.mpr (fun k hk =>
        containsSub_trans (queryKeywords_sub hk) hA)
    rw [matchCount_eval hfull]
  have hscoreA : 4/5 ≤ calculate_relevance_score query A := by
    rw [calculate_relevance_score_eq A hkw]
    rw [hAt, div_self (ne_of_gt hn), phraseBonus_eval_title hA]
    have h2 : 0 ≤ matchCount (queryKeywords query) (toLowerStr A.content)
        / ((queryKeywords query).length : ℚ) * (3/10) :=
      mul_nonneg (div_nonneg (matchCount_nonneg _ _) (le_of_lt hn))
        (by norm_num)
    have h4 := proximity_bonus_nonneg (toLowerStr A.content)
      (queryKeywords query)
    exact le_min (by linarith) (by norm_num)
  have hBt0 : matchCount (queryKeywords query) (toLowerStr B.title) = 0 := by
    have hno : (queryKeywords query).filter
        (fun k => containsSub k (toLowerStr B.title)) = [] := by
      rw [List.filter_eq_nil_iff]
      intro k hk
      rw [hBtitle k hk]
      simp
    rw [matchCount_eval hno]
    simp
  have hqB : containsSub (toLowerStr query) (toLowerStr B.title) = false := by
    obtain ⟨k0, hk0⟩ := List.exists_mem_of_ne_nil _ hkw
    cases hb : containsSub (toLowerStr query) (toLowerStr B.title)
    · rfl
    · have := containsSub_trans
        (queryKeywords_sub hk0) hb
      rw [hBtitle k0 hk0] at this
      cases this
  have hscoreB : calculate_relevance_score query B ≤ 11/20 := by
    rw [calculate_relevance_score_eq B hkw]
    refine le_trans (min_le_left _ _) ?_
    rw [hBt0, phraseBonus_eval_body hqB hBbody, zero_div, zero_mul, zero_add]
    have hle1 : matchCount (queryKeywords query) (toLowerStr B.content)
        / ((queryKeywords query).length : ℚ) ≤ 1 := by
      rw [div_le_one hn]
      exact matchCount_le_length _ _
    have h2 : matchCount (queryKeywords query) (toLowerStr B.content)
        / ((queryKeywords query).length : ℚ) * (3/10) ≤ 3/10 := by
      have := mul_le_mul_of_nonneg_right hle1
        (show (0:ℚ) ≤ 3/10 from by norm_num)
      simpa using this
    have h4 := proximity_bonus_le (toLowerStr B.content) (queryKeywords query)
    linarith
  linarith

/-- Witness for C6: query "dog cat", title article "Dog Cat guide" versus a
body-only article. -/
theorem C6_title_phrase_beats_body_phrase_witness :
    calculate_relevance_score ("dog cat".toList) dogCatBodyArticle <
      calculate_relevance_score ("dog cat".toList) dogCatTitleArticle :=
  C6_title_phrase_beats_body_phrase ("dog cat".toList)
    dogCatTitleArticle dogCatBodyArticle
    (by decide) (by decide) (by decide) (by decide)

/-- C9: with fetch_fresh requested, when the fresh-fetch collaborator fails
for a candidate among the selected top results, that candidate still
contributes a context article: the cached article found by URL lookup is
chosen, and the overall call returns a context string instead of failing. -/
theorem C9_fetch_failure_fallback (articles : List Article)
    (fetch : List Char → Option Article) (query : List Char)
    (max_articles : Nat) (r : SearchResult)
    (hr : r ∈ (search articles query (max_articles * 2) (3/20)).take
      max_articles)
    (hfail : fetch r.url = none) :
    (∃ a, lookupCached articles r.url = some a ∧
      pickContextArticle articles fetch true r = some a) ∧
    ∃ ctx, search_and_get_context articles fetch query max_articles true
      = some ctx := by
  have hrmem : r ∈ search articles query (max_articles * 2) (3/20) :=
    List.take_subset _ _ hr
  have hsome : (lookupCached articles r.url).isSome := by
    rcases mem_search hrmem with ⟨a0, ha0, _, rfl⟩
    rw [lookupCached, List.find?_isSome]
    exact ⟨a0, ha0, by simp [toSearchResult]⟩
  obtain ⟨a, ha⟩ := Option.isSome_iff_exists.mp hsome
  have hpick : pickContextArticle articles fetch true r = some a := by
    simp only [pickContextArticle, Bool.not_true, Bool.false_eq_true,
      if_false, hfail]
    exact ha
  refine ⟨⟨a, ha, hpick⟩, ?_⟩
  simp only [search_and_get_context]
  rw [if_neg (List.ne_nil_of_mem hrmem)]
  have hctx : ((search articles query (max_articles * 2) (3/20)).take
      max_articles).filterMap (pickContextArticle articles fetch true)
      ≠ [] := by
    intro he
    rw [List.filterMap_eq_nil_iff] at he
    have := he r hr
    rw [hpick] at this
    cases this
  rw [if_neg hctx]
  exact ⟨_, rfl⟩

/-- Witness for C9: one-article store, a fetch collaborator that always
fails, and the concrete top search result for "how can I reset". -/
theorem C9_fetch_failure_fallback_witness :
    (∃ a, lookupCached [resetArticle]
        (toSearchResult ("how can I reset".toList)
          (ScoredArticle.mk resetArticle (4/5))).url = some a ∧
      pickContextArticle [resetArticle] (fun _ => none) true
        (toSearchResult ("how can I reset".toList)
          (ScoredArticle.mk resetArticle (4/5))) = some a) ∧
    ∃ ctx, search_and_get_context [resetArticle] (fun _ => none)
      ("how can I reset".toList) 1 true = some ctx :=
  C9_fetch_failure_fallback [resetArticle] (fun _ => none)
    ("how can I reset".toList) 1
    (toSearchResult ("how can I reset".toList)
      (ScoredArticle.mk resetArticle (4/5)))
    (by
      rw [show (1:Nat) * 2 = 2 from rfl,
        search_singleton _ _ _ _ (by norm_num), resetArticle_score,
        if_pos (by norm_num)]
      simp)
    rfl

/-- C7 counterexample: for query "things" and content " things" the claimed
return value is the bare window " things" (the window starts at position 0
and reaches the content end, so no ellipsis is attached), but the extractor
strips the leading space and returns "things". -/
theorem C7_counterexample :
    extract_relevant_snippet ("things".toList) (" things".toList) 300
        = "things".toList ∧
    ("things".toList : List Char) ≠ " things".toList := by
  constructor
  · decide
  · decide

/-- C7 amended: with snippet keywords the word tokens of length > 3, if no
keyword occurs in the lowercased content the extractor returns the first
length characters plus an ellipsis marker, unstripped; otherwise, with m the
earliest occurrence position of any keyword, it returns the window from
m - 100 (clamped to the start) extending to length characters (clamped to
the content end), prefixed with an ellipsis when the window does not start
at 0 and suffixed with one when it stops short of the end, the whole result
stripped of leading and trailing whitespace. -/
theorem C7_snippet_window (query content : List Char) (len : Nat) :
    ((∀ k ∈ snippetKeywords query, ∀ i,
        ¬ occursAt k (toLowerStr content) i) →
      extract_relevant_snippet query content len
        = content.take len ++ "...".toList)
    ∧ (∀ m,
        (∃ k ∈ snippetKeywords query, occursAt k (toLowerStr content) m) →
        (∀ j < m, ∀ k ∈ snippetKeywords query,
          ¬ occursAt k (toLowerStr content) j) →
        extract_relevant_snippet query content len
          = pyStrip ((if 0 < m - 100 then "...".toList else [])
              ++ (content.drop (m - 100)).take
                  (min content.length (m - 100 + len) - (m - 100))
              ++ (if min content.length (m - 100 + len) < content.length
                  then "...".toList else []))) := by
  constructor
  · intro h
    have hpos : keywordPositions query content = [] := by
      rw [keywordPositions, List.filterMap_eq_nil_iff]
      intro k hk
      cases hfind : findSub k (toLowerStr content) with
      | none => rfl
      | some i => exact absurd (findSub_some_occurs hfind) (h k hk i)
    simp [extract_relevant_snippet, hpos, minList]
  · intro m hex hleast
    have hposmem : m ∈ keywordPositions query content := by
      obtain ⟨k, hk, hocc⟩ := hex
      rw [keywordPositions, List.mem_filterMap]
      refine ⟨k, hk, ?_⟩
      cases hfind : findSub k (toLowerStr content) with
      | none =>
        have hs := findSub_isSome_of_occurs hocc
        rw [hfind] at hs
        cases hs
      | some i =>
        have hocc_i := findSub_some_occurs hfind
        have h1 : ¬ i < m := fun hlt => hleast i hlt k hk hocc_i
        have h2 : ¬ m < i := fun hlt => findSub_some_least hfind m hlt hocc
        have hied : i = m := by omega
        rw [hied]
    have hall : ∀ x ∈ keywordPositions query content, m ≤ x := by
      intro x hx
      rw [keywordPositions, List.mem_filterMap] at hx
      obtain ⟨k, hk, hfind⟩ := hx
      have hocc_x := findSub_some_occurs hfind
      by_contra hlt
      exact hleast x (by omega) k hk hocc_x
    have hmin : minList (keywordPositions query content) = some m :=
      minList_eq_some hposmem hall
    simp only [extract_relevant_snippet, hmin]
    split_ifs <;> simp [List.append_assoc]

/-- Witness for C7 at a concrete match: keyword "wxyz" first occurs at
position 3 of the content, so the window clamps to the content start. -/
theorem C7_snippet_window_witness :
    extract_relevant_snippet ("wxyz stuv".toList)
        ("aa wxyz bb stuv".toList) 300
      = pyStrip ((if 0 < 3 - 100 then "...".toList else [])
          ++ (("aa wxyz bb stuv".toList).drop (3 - 100)).take
              (min ("aa wxyz bb stuv".toList).length (3 - 100 + 300)
                - (3 - 100))
          ++ (if min ("aa wxyz bb stuv".toList).length (3 - 100 + 300)
                < ("aa wxyz bb stuv".toList).length
              then "...".toList else [])) :=
  (C7_snippet_window ("wxyz stuv".toList) ("aa wxyz bb stuv".toList) 300).2
    3 (by decide) (by decide)
